import Mathlib

/-!
Verification of `rkyv`'s shared-pointer archiving core
(`src/rkyv/src/std_impl/shared/mod.rs`).

The file shallowly embeds the serialize / resolve / deserialize logic for
`rc::Rc`, `rc::Weak`, `sync::Arc` and `sync::Weak`.  Pointee identities
(`data_address`) and raw pointers are modelled as naturals; the external
serializer and deserializer registry capabilities (`serialize_shared`,
`deserialize_shared`), whose code is not part of the repository file under
study, are modelled from the specification's contracts.
-/

namespace RkyvShared

/-- Association-list lookup used by the registry models (first binding wins). -/
def alookup : List (Nat × Nat) → Nat → Option Nat
  | [], _ => Option.none
  | (k, v) :: rest, i => if k = i then Option.some v else alookup rest i

/-- The resolver for `Rc` (lines 30-33): the position at which the pointee was
or will be archived, and the pointee's metadata resolver. -/
structure RcResolver (μ : Type) where
  pos : Nat
  metadata_resolver : μ
deriving DecidableEq

/-- The resolver for `Arc` (lines 235-238). -/
structure ArcResolver (μ : Type) where
  pos : Nat
  metadata_resolver : μ
deriving DecidableEq

/-- The serializer capability consumed by the strong-pointer archivers: the
`SharedSerializer::serialize_shared` dedup-registry operation and the
pointee's `SerializeUnsized::serialize_metadata`.  `σ` is the serializer
state, `ε` its error type, `μ` the metadata resolver type and `V` the pointee
type; the `Nat` argument of `serialize_shared` is the pointee identity
(its `data_address`). -/
structure SharedSerializerOps (σ ε μ V : Type) where
  serialize_shared : σ → Nat → V → Except ε (Nat × σ)
  serialize_metadata : σ → V → Except ε (μ × σ)

/-- `impl Serialize for rc::Rc<T>` (lines 87-93): build an `RcResolver` from
`serializer.serialize_shared(self.deref())?` and
`self.deref().serialize_metadata(serializer)?`, propagating either error. -/
def serializeRc (ops : SharedSerializerOps σ ε μ V) (ident : Nat) (v : V) (s : σ) :
    Except ε (RcResolver μ × σ) :=
  match ops.serialize_shared s ident v with
  | Except.error e => Except.error e
  | Except.ok ps =>
    match ops.serialize_metadata ps.2 v with
    | Except.error e => Except.error e
    | Except.ok ms => Except.ok (⟨ps.1, ms.1⟩, ms.2)

/-- `impl Serialize for sync::Arc<T>` (lines 295-301), the `Arc` twin of
`serializeRc`. -/
def serializeArc (ops : SharedSerializerOps σ ε μ V) (ident : Nat) (v : V) (s : σ) :
    Except ε (ArcResolver μ × σ) :=
  match ops.serialize_shared s ident v with
  | Except.error e => Except.error e
  | Except.ok ps =>
    match ops.serialize_metadata ps.2 v with
    | Except.error e => Except.error e
    | Except.ok ms => Except.ok (⟨ps.1, ms.1⟩, ms.2)

/-- The resolver for `rc::Weak` (lines 113-119). -/
inductive RcWeakResolver (μ : Type) where
  | none
  | some (r : RcResolver μ)
deriving DecidableEq

/-- The resolver for `sync::Weak` (lines 320-326). -/
inductive ArcWeakResolver (μ : Type) where
  | none
  | some (r : ArcResolver μ)
deriving DecidableEq

/-- `impl Serialize for rc::Weak<T>` (lines 202-208).  A live weak pointer is
represented by the outcome of `self.upgrade()` at serialization time:
`Option.none` when the pointee is already destroyed, otherwise the upgraded
strong pointer's identity and pointee value. -/
def serializeRcWeak (ops : SharedSerializerOps σ ε μ V) (upgr : Option (Nat × V)) (s : σ) :
    Except ε (RcWeakResolver μ × σ) :=
  match upgr with
  | Option.none => Except.ok (RcWeakResolver.none, s)
  | Option.some iv =>
    match serializeRc ops iv.1 iv.2 s with
    | Except.error e => Except.error e
    | Except.ok rs => Except.ok (RcWeakResolver.some rs.1, rs.2)

/-- `impl Serialize for sync::Weak<T>` (lines 409-415). -/
def serializeArcWeak (ops : SharedSerializerOps σ ε μ V) (upgr : Option (Nat × V)) (s : σ) :
    Except ε (ArcWeakResolver μ × σ) :=
  match upgr with
  | Option.none => Except.ok (ArcWeakResolver.none, s)
  | Option.some iv =>
    match serializeArc ops iv.1 iv.2 s with
    | Except.error e => Except.error e
    | Except.ok rs => Except.ok (ArcWeakResolver.some rs.1, rs.2)

/-- `impl Archive for rc::Rc<T>::resolve` (lines 74-81): a direct delegation to
the external `resolve_unsized` primitive with arguments
`(pos, resolver.pos, resolver.metadata_resolver)`, targeting the `RelPtr`
field at byte offset 0 of the wrapper.  The model records the delegated
argument triple. -/
def resolveRc (pos : Nat) (r : RcResolver μ) : Nat × Nat × μ :=
  (pos, r.pos, r.metadata_resolver)

/-- `impl Archive for sync::Arc<T>::resolve` (lines 282-289). -/
def resolveArc (pos : Nat) (r : ArcResolver μ) : Nat × Nat × μ :=
  (pos, r.pos, r.metadata_resolver)

/-- One write performed by a weak-pointer `resolve`: either the one-byte
discriminant (tag) value, or the delegated strong-pointer payload resolve
recording the `RelPtr` target position and the metadata resolver. -/
inductive WriteEvent (μ : Type) where
  | tag (value : Nat)
  | payload (target : Nat) (m : μ)
deriving DecidableEq

/-- `impl Archive for rc::Weak<T>::resolve` (lines 171-196), as the sequence of
writes it performs, each paired with its absolute position.  `off1` models
`offset_of!(ArchivedRcWeakVariantSome<T::Archived>, 1)`, the offset of the
payload field of the `repr(C)` Some-variant struct (the tag is field 0 at
offset 0).  Tag values follow the `repr(u8)` `ArchivedRcWeakTag` enum:
`None = 0`, `Some = 1`.  `upgr` is the state of the live weak pointer at
resolve time, because the `Some` branch calls `self.upgrade().unwrap()`
(line 189): when the pointee is gone the `unwrap` panics, modelled as
`Option.none`. -/
def resolveRcWeakTrace (off1 : Nat) (upgr : Option (Nat × V)) (resolver : RcWeakResolver μ)
    (pos : Nat) : Option (List (Nat × WriteEvent μ)) :=
  match resolver with
  | RcWeakResolver.none => Option.some [(pos, WriteEvent.tag 0)]
  | RcWeakResolver.some r =>
    match upgr with
    | Option.none => Option.none
    | Option.some _ =>
      Option.some [(pos, WriteEvent.tag 1), (pos + off1, WriteEvent.payload r.pos r.metadata_resolver)]

/-- `impl Archive for sync::Weak<T>::resolve` (lines 378-404); the `Some`
branch calls `self.upgrade().unwrap()` at line 396. -/
def resolveArcWeakTrace (off1 : Nat) (upgr : Option (Nat × V)) (resolver : ArcWeakResolver μ)
    (pos : Nat) : Option (List (Nat × WriteEvent μ)) :=
  match resolver with
  | ArcWeakResolver.none => Option.some [(pos, WriteEvent.tag 0)]
  | ArcWeakResolver.some r =>
    match upgr with
    | Option.none => Option.none
    | Option.some _ =>
      Option.some [(pos, WriteEvent.tag 1), (pos + off1, WriteEvent.payload r.pos r.metadata_resolver)]

/-- An archived `rc::Weak` (lines 121-128), payload type abstract.  In the
deserialization model the payload is the archived pointee identity (`Nat`). -/
inductive ArchivedRcWeak (A : Type) where
  | none
  | some (r : A)
deriving DecidableEq

/-- An archived `sync::Weak` (lines 328-335). -/
inductive ArchivedArcWeak (A : Type) where
  | none
  | some (r : A)
deriving DecidableEq

/-- `ArchivedRcWeak::upgrade` (lines 147-153). -/
def ArchivedRcWeak.upgrade : ArchivedRcWeak A → Option A
  | ArchivedRcWeak.none => Option.none
  | ArchivedRcWeak.some r => Option.some r

/-- `ArchivedRcWeak::upgrade_pin` (lines 156-164): the pinned variant returns
the same branch outcomes as `upgrade`, as a pinned mutable view. -/
def ArchivedRcWeak.upgrade_pin : ArchivedRcWeak A → Option A
  | ArchivedRcWeak.none => Option.none
  | ArchivedRcWeak.some r => Option.some r

/-- `upgrade` with the `&self` receiver threaded through explicitly, to state
that the call leaves the archived value unchanged. -/
def ArchivedRcWeak.upgradeRun : ArchivedRcWeak A → Option A × ArchivedRcWeak A
  | ArchivedRcWeak.none => (Option.none, ArchivedRcWeak.none)
  | ArchivedRcWeak.some r => (Option.some r, ArchivedRcWeak.some r)

/-- `ArchivedArcWeak::upgrade` (lines 354-360). -/
def ArchivedArcWeak.upgrade : ArchivedArcWeak A → Option A
  | ArchivedArcWeak.none => Option.none
  | ArchivedArcWeak.some r => Option.some r

/-- `ArchivedArcWeak::upgrade_pin` (lines 363-371). -/
def ArchivedArcWeak.upgrade_pin : ArchivedArcWeak A → Option A
  | ArchivedArcWeak.none => Option.none
  | ArchivedArcWeak.some r => Option.some r

/-- `ArchivedArcWeak.upgrade` with the receiver threaded through. -/
def ArchivedArcWeak.upgradeRun : ArchivedArcWeak A → Option A × ArchivedArcWeak A
  | ArchivedArcWeak.none => (Option.none, ArchivedArcWeak.none)
  | ArchivedArcWeak.some r => (Option.some r, ArchivedArcWeak.some r)

/-- A live strong shared pointer as seen by the equality impls: its pointee
address and its pointee value; `deref` yields the value. -/
structure LiveRc (V : Type) where
  addr : Nat
  value : V

/-- A live `Arc`, modelled likewise. -/
structure LiveArc (V : Type) where
  addr : Nat
  value : V

/-- An `ArchivedRc<T>` as seen through `Deref` (lines 53-60): the address its
`RelPtr` designates and the archived pointee value found there. -/
structure ArchivedRcView (A : Type) where
  addr : Nat
  value : A

/-- An `ArchivedArc<T>` as seen through `Deref` (lines 259-266). -/
structure ArchivedArcView (A : Type) where
  addr : Nat
  value : A

/-- `impl PartialEq<rc::Rc<U>> for ArchivedRc<T>` (lines 62-67):
`self.deref().eq(other.deref())`, where `eqv` is the pointee type's
`PartialEq::eq`. -/
def archivedRcEq (eqv : A → B → Bool) (a : ArchivedRcView A) (r : LiveRc B) : Bool :=
  eqv a.value r.value

/-- `impl PartialEq<sync::Arc<U>> for ArchivedArc<T>` (lines 268-275). -/
def archivedArcEq (eqv : A → B → Bool) (a : ArchivedArcView A) (r : LiveArc B) : Bool :=
  eqv a.value r.value

/-- Serializer state for the dedup-registry model: the archive as the list of
pointee records in write order (a record is the pointee identity it was
archived from, paired with its bytes; its position is its index), and the
registry mapping each already-archived identity to its position. -/
structure SState (V : Type) where
  archive : List (Nat × V)
  registry : List (Nat × Nat)

/-- The empty serializer state at the start of one archiving operation. -/
def initS : SState V := ⟨[], []⟩

/-- Modelled from the spec: `serialize_shared(pointee) -> position` — "returns
the position at which the given pointee identity is or will be archived,
performing the dedup check/insert" (spec section 6; the registry's code is
external to the file under study).  On a hit the recorded position is
returned and nothing is written; on a miss the pointee is archived now and
the new position recorded. -/
def serialize_shared (s : SState V) (ident : Nat) (v : V) : Nat × SState V :=
  match alookup s.registry ident with
  | Option.some pos => (pos, s)
  | Option.none =>
    (s.archive.length, ⟨s.archive ++ [(ident, v)], (ident, s.archive.length) :: s.registry⟩)

/-- The dedup-registry serializer capability: `serialize_shared` as modelled
from the spec, and a metadata serializer for sized pointees (whose
`MetadataResolver` is the unit type and whose serialization writes nothing),
neither of which can fail. -/
def dedupOps : SharedSerializerOps (SState V) Empty Unit V where
  serialize_shared := fun s id v => Except.ok (serialize_shared s id v)
  serialize_metadata := fun s _ => Except.ok ((), s)

/-- One serialize call of an archiving operation: a strong pointer, a live
weak pointer (with the pointee identity and value its upgrade yields), or a
weak pointer whose pointee is already destroyed. -/
inductive SReq (V : Type) where
  | strong (ident : Nat) (v : V)
  | weakLive (ident : Nat) (v : V)
  | weakDead
deriving DecidableEq

/-- The pointee identity a serialize call archives, if any. -/
def SReq.identOf : SReq V → Option Nat
  | SReq.strong i _ => Option.some i
  | SReq.weakLive i _ => Option.some i
  | SReq.weakDead => Option.none

/-- Run a sequence of serialize calls over the dedup registry, collecting for
each call the position its resolver records (`Option.none` for a dead weak
pointer, whose `None` resolver records no position). -/
def runSerialize : List (SReq V) → SState V → List (Option Nat) × SState V
  | [], s => ([], s)
  | SReq.strong i v :: rest, s =>
    match serializeRc dedupOps i v s with
    | Except.error e => e.elim
    | Except.ok rs =>
      (Option.some rs.1.pos :: (runSerialize rest rs.2).1, (runSerialize rest rs.2).2)
  | SReq.weakLive i v :: rest, s =>
    match serializeRcWeak dedupOps (Option.some (i, v)) s with
    | Except.error e => e.elim
    | Except.ok rs =>
      ((match rs.1 with
        | RcWeakResolver.none => Option.none
        | RcWeakResolver.some r => Option.some r.pos) :: (runSerialize rest rs.2).1,
       (runSerialize rest rs.2).2)
  | SReq.weakDead :: rest, s =>
    match serializeRcWeak dedupOps (Option.none : Option (Nat × V)) s with
    | Except.error e => e.elim
    | Except.ok rs =>
      ((match rs.1 with
        | RcWeakResolver.none => Option.none
        | RcWeakResolver.some r => Option.some r.pos) :: (runSerialize rest rs.2).1,
       (runSerialize rest rs.2).2)

/-- The serializer-side registry invariant: archived identities are distinct,
every registry binding points at the archive record of its identity, and an
unregistered identity has no archive record. -/
def SInv (s : SState V) : Prop :=
  (s.archive.map Prod.fst).Nodup ∧
  (∀ id p, alookup s.registry id = Option.some p → ∃ v, s.archive[p]? = Option.some (id, v)) ∧
  (∀ id, alookup s.registry id = Option.none → id ∉ s.archive.map Prod.fst)

/-- Deserializer state for the dedup-registry model: the registry mapping each
archived pointee identity to its reconstructed raw allocation, the heap
mapping each allocation to its strong count, a fresh-allocation source, and
the identities whose constructor has run, in order. -/
structure DState where
  dregistry : List (Nat × Nat)
  heap : List (Nat × Nat)
  nextPtr : Nat
  constructed : List Nat

/-- The empty deserializer state at the start of one read-back. -/
def initD : DState := ⟨[], [], 0, []⟩

/-- Increment the strong count of allocation `p` (first heap entry wins, as
for `alookup`). -/
def heapInc : List (Nat × Nat) → Nat → List (Nat × Nat)
  | [], _ => []
  | (k, n) :: rest, p => if k = p then (k, n + 1) :: rest else (k, n) :: heapInc rest p

/-- Decrement the strong count of allocation `p`. -/
def heapDec : List (Nat × Nat) → Nat → List (Nat × Nat)
  | [], _ => []
  | (k, n) :: rest, p => if k = p then (k, n - 1) :: rest else (k, n) :: heapDec rest p

/-- Drop `k` caller-held strong handles of allocation `p`, one decrement per
handle. -/
def dropHandles (h : List (Nat × Nat)) (p : Nat) : Nat → List (Nat × Nat)
  | 0 => h
  | k + 1 => heapDec (dropHandles h p k) p

/-- Modelled from the spec:
`deserialize_shared(archived_pointee, constructor) -> raw_pointer` — "returns
the raw allocation for a given archived pointee identity, invoking
`constructor` only on first sighting" (spec section 6; the registry's code is
external to the file under study).  On first sighting the constructor builds
the allocation with strong count 1 — the registry's standing reference — and
the raw pointer is registered; later sightings return the registered raw
pointer unchanged. -/
def deserialize_shared (s : DState) (ident : Nat) : Nat × DState :=
  match alookup s.dregistry ident with
  | Option.some ptr => (ptr, s)
  | Option.none =>
    (s.nextPtr,
     ⟨(ident, s.nextPtr) :: s.dregistry, (s.nextPtr, 1) :: s.heap, s.nextPtr + 1,
      s.constructed ++ [ident]⟩)

/-- `impl Deserialize<rc::Rc<T>, D>` (lines 101-110): obtain the raw pointer
from `deserialize_shared`, reconstruct the handle with `Rc::from_raw` (which
claims one conceptual strong reference without incrementing the count), then
`forget(shared_ptr.clone())` — the clone increments the count and the forget
keeps the increment, preserving the registry's standing reference. -/
def rcDeserialize (s : DState) (ident : Nat) : Nat × DState :=
  ((deserialize_shared s ident).1,
   { (deserialize_shared s ident).2 with
     heap := heapInc (deserialize_shared s ident).2.heap (deserialize_shared s ident).1 })

/-- `impl Deserialize<sync::Arc<T>, D>` (lines 309-317), the `Arc` twin of
`rcDeserialize`. -/
def arcDeserialize (s : DState) (ident : Nat) : Nat × DState :=
  ((deserialize_shared s ident).1,
   { (deserialize_shared s ident).2 with
     heap := heapInc (deserialize_shared s ident).2.heap (deserialize_shared s ident).1 })

/-- `impl Deserialize<rc::Weak<T>, D>` (lines 218-224): an archived `None`
produces `rc::Weak::new()` (an unassociated handle, modelled `Option.none`);
an archived `Some` deserializes the payload through the dedup registry and
returns `Rc::downgrade` of the resulting strong handle — that temporary
strong handle is dropped at the end of the expression, decrementing the
count it carried. -/
def rcWeakDeserialize (s : DState) (aw : ArchivedRcWeak Nat) : Option Nat × DState :=
  match aw with
  | ArchivedRcWeak.none => (Option.none, s)
  | ArchivedRcWeak.some ident =>
    (Option.some (rcDeserialize s ident).1,
     { (rcDeserialize s ident).2 with
       heap := heapDec (rcDeserialize s ident).2.heap (rcDeserialize s ident).1 })

/-- `impl Deserialize<sync::Weak<T>, D>` (lines 425-431). -/
def arcWeakDeserialize (s : DState) (aw : ArchivedArcWeak Nat) : Option Nat × DState :=
  match aw with
  | ArchivedArcWeak.none => (Option.none, s)
  | ArchivedArcWeak.some ident =>
    (Option.some (arcDeserialize s ident).1,
     { (arcDeserialize s ident).2 with
       heap := heapDec (arcDeserialize s ident).2.heap (arcDeserialize s ident).1 })

/-- Upgrade of a live (deserialized) weak handle: `rc::Weak::new()` is
unassociated (`Option.none`) and never upgrades; an associated handle
upgrades while its allocation's strong count is positive. -/
def liveWeakUpgrade (heap : List (Nat × Nat)) (w : Option Nat) : Option Nat :=
  match w with
  | Option.none => Option.none
  | Option.some p =>
    match alookup heap p with
    | Option.some (n + 1) => if 0 ≤ n then Option.some p else Option.none
    | _ => Option.none

/-- One deserialize call of a read-back: a strong archived pointer, identified
by its archived pointee identity, or an archived weak pointer. -/
inductive DReq where
  | strong (ident : Nat)
  | weakReq (aw : ArchivedRcWeak Nat)
deriving DecidableEq

/-- The archived pointee identity a deserialize call dereferences, if any. -/
def DReq.identOf : DReq → Option Nat
  | DReq.strong i => Option.some i
  | DReq.weakReq ArchivedRcWeak.none => Option.none
  | DReq.weakReq (ArchivedRcWeak.some i) => Option.some i

/-- A handle produced by one deserialize call. -/
inductive DHandle where
  | strong (ptr : Nat)
  | weak (w : Option Nat)
deriving DecidableEq

/-- The allocation a handle is associated with, if any. -/
def DHandle.ptrOf : DHandle → Option Nat
  | DHandle.strong p => Option.some p
  | DHandle.weak w => w

/-- Run a sequence of deserialize calls through one deserializer. -/
def runDeserialize : List DReq → DState → List DHandle × DState
  | [], s => ([], s)
  | DReq.strong i :: rest, s =>
    (DHandle.strong (rcDeserialize s i).1 :: (runDeserialize rest (rcDeserialize s i).2).1,
     (runDeserialize rest (rcDeserialize s i).2).2)
  | DReq.weakReq aw :: rest, s =>
    (DHandle.weak (rcWeakDeserialize s aw).1 :: (runDeserialize rest (rcWeakDeserialize s aw).2).1,
     (runDeserialize rest (rcWeakDeserialize s aw).2).2)

/-- The deserializer-side registry invariant: the constructor ran at most once
per identity, and exactly for the registered identities. -/
def DInv (s : DState) : Prop :=
  s.constructed.Nodup ∧
  (∀ id, id ∈ s.constructed ↔ alookup s.dregistry id ≠ Option.none)

/-- The counting invariant for the deserializer: registered raw pointers are
below the fresh-allocation source and distinct identities hold distinct
allocations. -/
def CInv (s : DState) : Prop :=
  (∀ id p, alookup s.dregistry id = Option.some p → p < s.nextPtr) ∧
  (∀ id id' p, alookup s.dregistry id = Option.some p →
    alookup s.dregistry id' = Option.some p → id = id')

/-- `ArcResolver` to `RcResolver`, the field-for-field correspondence of the
two isomorphic instantiations. -/
def ArcResolver.toRcResolver (r : ArcResolver μ) : RcResolver μ :=
  ⟨r.pos, r.metadata_resolver⟩

/-- `ArcWeakResolver` to `RcWeakResolver`. -/
def ArcWeakResolver.toRcWeakResolver : ArcWeakResolver μ → RcWeakResolver μ
  | ArcWeakResolver.none => RcWeakResolver.none
  | ArcWeakResolver.some r => RcWeakResolver.some r.toRcResolver

/-- `ArchivedArcWeak` to `ArchivedRcWeak`. -/
def ArchivedArcWeak.toRcWeak : ArchivedArcWeak A → ArchivedRcWeak A
  | ArchivedArcWeak.none => ArchivedRcWeak.none
  | ArchivedArcWeak.some r => ArchivedRcWeak.some r

/-! Helper lemmas shared by several claims. -/

theorem alookup_cons (k v : Nat) (rest : List (Nat × Nat)) (i : Nat) :
    alookup ((k, v) :: rest) i = if k = i then Option.some v else alookup rest i := rfl

theorem getElem?_append_left_of_some (l l' : List α) (i : Nat) (x : α)
    (h : l[i]? = Option.some x) : (l ++ l')[i]? = Option.some x := by
  induction l generalizing i with
  | nil => simp at h
  | cons a t ih =>
    cases i with
    | zero => simpa using h
    | succ n =>
      rw [List.cons_append]
      simpa using ih n (by simpa using h)

theorem getElem?_append_length (l : List α) (x : α) :
    (l ++ [x])[l.length]? = Option.some x := by
  induction l with
  | nil => rfl
  | cons a t ih =>
    rw [List.cons_append]
    simp only [List.length_cons, List.getElem?_cons_succ]
    exact ih

theorem mem_of_getElem?_eq (l : List α) (i : Nat) (x : α) (h : l[i]? = Option.some x) :
    x ∈ l := by
  induction l generalizing i with
  | nil => simp at h
  | cons a t ih =>
    cases i with
    | zero =>
      simp at h
      simp [h]
    | succ n => exact List.mem_cons_of_mem _ (ih n (by simpa using h))

theorem serialize_shared_of_some (s : SState V) (id : Nat) (v : V) (p : Nat)
    (hl : alookup s.registry id = Option.some p) :
    serialize_shared s id v = (p, s) := by
  simp [serialize_shared, hl]

theorem serialize_shared_of_none (s : SState V) (id : Nat) (v : V)
    (hl : alookup s.registry id = Option.none) :
    serialize_shared s id v =
      (s.archive.length,
       ⟨s.archive ++ [(id, v)], (id, s.archive.length) :: s.registry⟩) := by
  simp [serialize_shared, hl]

theorem serialize_shared_lookup_self (s : SState V) (id : Nat) (v : V) :
    alookup (serialize_shared s id v).2.registry id =
      Option.some (serialize_shared s id v).1 := by
  cases hl : alookup s.registry id with
  | some p => rw [serialize_shared_of_some s id v p hl]; exact hl
  | none =>
    rw [serialize_shared_of_none s id v hl]
    simp [alookup_cons]

theorem serialize_shared_lookup_mono (s : SState V) (id : Nat) (v : V) (id' p : Nat)
    (h : alookup s.registry id' = Option.some p) :
    alookup (serialize_shared s id v).2.registry id' = Option.some p := by
  cases hl : alookup s.registry id with
  | some q => rw [serialize_shared_of_some s id v q hl]; exact h
  | none =>
    rw [serialize_shared_of_none s id v hl, alookup_cons]
    have hne : id ≠ id' := by
      intro he
      subst he
      simp [h] at hl
    rw [if_neg hne]
    exact h

theorem serialize_shared_archive_get (s : SState V) (id : Nat) (v : V) (i : Nat) (x : Nat × V)
    (h : s.archive[i]? = Option.some x) :
    (serialize_shared s id v).2.archive[i]? = Option.some x := by
  cases hl : alookup s.registry id with
  | some q => rw [serialize_shared_of_some s id v q hl]; exact h
  | none =>
    rw [serialize_shared_of_none s id v hl]
    exact getElem?_append_left_of_some _ _ _ _ h

theorem serialize_shared_archive_mem (s : SState V) (id : Nat) (v : V) (id' : Nat)
    (h : SInv s) :
    id' ∈ (serialize_shared s id v).2.archive.map Prod.fst ↔
      (id' ∈ s.archive.map Prod.fst ∨ id' = id) := by
  cases hl : alookup s.registry id with
  | some q =>
    rw [serialize_shared_of_some s id v q hl]
    constructor
    · exact Or.inl
    · rintro (hm | rfl)
      · exact hm
      · obtain ⟨v', hv⟩ := h.2.1 id' q hl
        exact List.mem_map.2 ⟨(id', v'), mem_of_getElem?_eq _ _ _ hv, rfl⟩
  | none =>
    rw [serialize_shared_of_none s id v hl]
    simp [List.mem_append]

theorem serialize_shared_inv (s : SState V) (id : Nat) (v : V) (h : SInv s) :
    SInv (serialize_shared s id v).2 := by
  obtain ⟨hnd, hreg, hnone⟩ := h
  cases hl : alookup s.registry id with
  | some q =>
    rw [serialize_shared_of_some s id v q hl]
    exact ⟨hnd, hreg, hnone⟩
  | none =>
    rw [serialize_shared_of_none s id v hl]
    refine ⟨?_, ?_, ?_⟩
    · rw [List.map_append]
      refine hnd.append ?_ ?_
      · simp
      · intro a ha hb
        simp at hb
        subst hb
        exact hnone a hl ha
    · intro id' p hp
      rw [alookup_cons] at hp
      by_cases he : id = id'
      · rw [if_pos he] at hp
        injection hp with hp
        subst hp
        exact ⟨v, by rw [← he]; exact getElem?_append_length s.archive (id, v)⟩
      · rw [if_neg he] at hp
        obtain ⟨v', hv⟩ := hreg id' p hp
        exact ⟨v', getElem?_append_left_of_some _ _ _ _ hv⟩
    · intro id' hp
      rw [alookup_cons] at hp
      by_cases he : id = id'
      · rw [if_pos he] at hp
        cases hp
      · rw [if_neg he] at hp
        rw [List.map_append]
        simp only [List.mem_append, List.map_cons, List.map_nil, List.mem_singleton]
        rintro (hc | hc)
        · exact hnone id' hp hc
        · exact he hc.symm

theorem serializeRc_dedupOps (s : SState V) (id : Nat) (v : V) :
    serializeRc dedupOps id v s =
      Except.ok (⟨(serialize_shared s id v).1, ()⟩, (serialize_shared s id v).2) := rfl

theorem serializeRcWeak_dedupOps_some (s : SState V) (iv : Nat × V) :
    serializeRcWeak dedupOps (Option.some iv) s =
      Except.ok (RcWeakResolver.some ⟨(serialize_shared s iv.1 iv.2).1, ()⟩,
        (serialize_shared s iv.1 iv.2).2) := rfl

theorem runSerialize_cons_strong (i : Nat) (v : V) (rest : List (SReq V)) (s : SState V) :
    runSerialize (SReq.strong i v :: rest) s =
      (Option.some (serialize_shared s i v).1 ::
        (runSerialize rest (serialize_shared s i v).2).1,
       (runSerialize rest (serialize_shared s i v).2).2) := by
  simp [runSerialize, serializeRc_dedupOps]

theorem runSerialize_cons_weakLive (i : Nat) (v : V) (rest : List (SReq V)) (s : SState V) :
    runSerialize (SReq.weakLive i v :: rest) s =
      (Option.some (serialize_shared s i v).1 ::
        (runSerialize rest (serialize_shared s i v).2).1,
       (runSerialize rest (serialize_shared s i v).2).2) := by
  simp [runSerialize, serializeRcWeak_dedupOps_some]

theorem runSerialize_cons_weakDead (rest : List (SReq V)) (s : SState V) :
    runSerialize (SReq.weakDead :: rest) s =
      (Option.none :: (runSerialize rest s).1, (runSerialize rest s).2) := by
  simp [runSerialize, serializeRcWeak]

theorem runSerialize_spec (inputs : List (SReq V)) (s : SState V) (hInv : SInv s) :
    SInv (runSerialize inputs s).2 ∧
    (runSerialize inputs s).1.length = inputs.length ∧
    (∀ id p, alookup s.registry id = Option.some p →
      alookup (runSerialize inputs s).2.registry id = Option.some p) ∧
    (∀ id, id ∈ (runSerialize inputs s).2.archive.map Prod.fst ↔
      (id ∈ s.archive.map Prod.fst ∨ Option.some id ∈ inputs.map SReq.identOf)) ∧
    (∀ q ∈ List.zip inputs (runSerialize inputs s).1, ∀ id,
      q.1.identOf = Option.some id →
      ∃ p, q.2 = Option.some p ∧
        alookup (runSerialize inputs s).2.registry id = Option.some p) := by
  induction inputs generalizing s with
  | nil =>
    refine ⟨hInv, rfl, fun id p h => h, fun id => ?_, fun q hq => ?_⟩
    · simp [runSerialize]
    · simp [runSerialize] at hq
  | cons req rest ih =>
    cases req with
    | strong i v =>
      rw [runSerialize_cons_strong]
      obtain ⟨h1, h2, h3, h4, h5⟩ :=
        ih (serialize_shared s i v).2 (serialize_shared_inv s i v hInv)
      refine ⟨h1, by simp [h2], ?_, ?_, ?_⟩
      · intro id p hp
        exact h3 id p (serialize_shared_lookup_mono s i v id p hp)
      · intro id
        rw [h4 id, serialize_shared_archive_mem s i v id hInv]
        simp [SReq.identOf]
        tauto
      · intro q hq id hid
        rw [List.zip_cons_cons] at hq
        rcases List.mem_cons.1 hq with hq | hq
        · subst hq
          simp [SReq.identOf] at hid
          subst hid
          exact ⟨(serialize_shared s i v).1, rfl,
            h3 _ _ (serialize_shared_lookup_self s i v)⟩
        · exact h5 q hq id hid
    | weakLive i v =>
      rw [runSerialize_cons_weakLive]
      obtain ⟨h1, h2, h3, h4, h5⟩ :=
        ih (serialize_shared s i v).2 (serialize_shared_inv s i v hInv)
      refine ⟨h1, by simp [h2], ?_, ?_, ?_⟩
      · intro id p hp
        exact h3 id p (serialize_shared_lookup_mono s i v id p hp)
      · intro id
        rw [h4 id, serialize_shared_archive_mem s i v id hInv]
        simp [SReq.identOf]
        tauto
      · intro q hq id hid
        rw [List.zip_cons_cons] at hq
        rcases List.mem_cons.1 hq with hq | hq
        · subst hq
          simp [SReq.identOf] at hid
          subst hid
          exact ⟨(serialize_shared s i v).1, rfl,
            h3 _ _ (serialize_shared_lookup_self s i v)⟩
        · exact h5 q hq id hid
    | weakDead =>
      rw [runSerialize_cons_weakDead]
      obtain ⟨h1, h2, h3, h4, h5⟩ := ih s hInv
      refine ⟨h1, by simp [h2], h3, ?_, ?_⟩
      · intro id
        rw [h4 id]
        simp [SReq.identOf]
      · intro q hq id hid
        rw [List.zip_cons_cons] at hq
        rcases List.mem_cons.1 hq with hq | hq
        · subst hq
          simp [SReq.identOf] at hid
        · exact h5 q hq id hid

theorem serializeArc_toRc (ops : SharedSerializerOps σ ε μ V) (ident : Nat) (v : V) (s : σ) :
    (serializeArc ops ident v s).map (fun p => (p.1.toRcResolver, p.2)) =
      serializeRc ops ident v s := by
  cases h1 : ops.serialize_shared s ident v with
  | error e => simp [serializeRc, serializeArc, h1, Except.map]
  | ok ps =>
    cases h2 : ops.serialize_metadata ps.2 v with
    | error e => simp [serializeRc, serializeArc, h1, h2, Except.map]
    | ok ms => simp [serializeRc, serializeArc, h1, h2, Except.map, ArcResolver.toRcResolver]

theorem serializeArcWeak_toRc (ops : SharedSerializerOps σ ε μ V) (u : Option (Nat × V)) (s : σ) :
    (serializeArcWeak ops u s).map (fun p => (p.1.toRcWeakResolver, p.2)) =
      serializeRcWeak ops u s := by
  cases u with
  | none => rfl
  | some iv =>
    have h := serializeArc_toRc ops iv.1 iv.2 s
    cases ha : serializeArc ops iv.1 iv.2 s with
    | error e =>
      rw [ha] at h
      simp [Except.map] at h
      simp [serializeArcWeak, serializeRcWeak, ha, ← h, Except.map]
    | ok rs =>
      rw [ha] at h
      simp [Except.map] at h
      simp [serializeArcWeak, serializeRcWeak, ha, ← h, Except.map,
        ArcWeakResolver.toRcWeakResolver]

theorem resolveArcWeakTrace_toRc (off1 : Nat) (u : Option (Nat × V))
    (wr : ArcWeakResolver μ) (pos : Nat) :
    resolveArcWeakTrace off1 u wr pos =
      resolveRcWeakTrace off1 u wr.toRcWeakResolver pos := by
  cases wr <;> cases u <;> rfl

theorem arcWeakDeserialize_toRc (ds : DState) (aw : ArchivedArcWeak Nat) :
    arcWeakDeserialize ds aw = rcWeakDeserialize ds aw.toRcWeak := by
  cases aw <;> rfl

theorem archivedArcWeak_upgrade_toRc (A : Type) (aw : ArchivedArcWeak A) :
    aw.upgrade = aw.toRcWeak.upgrade := by
  cases aw <;> rfl

/-! The claims. -/

/-- Claim C6: the equality comparison between an archived shared pointer and a
live shared pointer (Rc or Arc) returns true iff their pointee values compare
equal under the pointee type's equality, independent of the addresses of
either pointee. -/
theorem archived_eq_by_value (A B : Type) (eqv : A → B → Bool)
    (a : ArchivedRcView A) (r : LiveRc B) (a2 : ArchivedArcView A) (r2 : LiveArc B) :
    (archivedRcEq eqv a r = true ↔ eqv a.value r.value = true) ∧
    (∀ (a' : ArchivedRcView A) (r' : LiveRc B), a.value = a'.value → r.value = r'.value →
      archivedRcEq eqv a r = archivedRcEq eqv a' r') ∧
    (archivedArcEq eqv a2 r2 = true ↔ eqv a2.value r2.value = true) ∧
    (∀ (a' : ArchivedArcView A) (r' : LiveArc B), a2.value = a'.value → r2.value = r'.value →
      archivedArcEq eqv a2 r2 = archivedArcEq eqv a' r') := by
  refine ⟨Iff.rfl, ?_, Iff.rfl, ?_⟩ <;>
    · intro a' r' hv hw
      simp [archivedRcEq, archivedArcEq, hv, hw]

/-- Claim C7: for every archived weak pointer, `upgrade` returns nothing
exactly when the discriminant is `None` and returns the contained archived
shared pointer when it is `Some`; the call leaves the archived value
unchanged, and `upgrade_pin` returns `Some` exactly when `upgrade` would. -/
theorem archived_weak_upgrade_spec (A : Type) (w : ArchivedRcWeak A) (w2 : ArchivedArcWeak A) :
    (w.upgrade = Option.none ↔ w = ArchivedRcWeak.none) ∧
    (∀ r, w.upgrade = Option.some r ↔ w = ArchivedRcWeak.some r) ∧
    (w.upgradeRun.2 = w ∧ w.upgradeRun.1 = w.upgrade) ∧
    ((ArchivedRcWeak.upgrade_pin w).isSome = w.upgrade.isSome) ∧
    (w2.upgrade = Option.none ↔ w2 = ArchivedArcWeak.none) ∧
    (∀ r, w2.upgrade = Option.some r ↔ w2 = ArchivedArcWeak.some r) ∧
    (w2.upgradeRun.2 = w2 ∧ w2.upgradeRun.1 = w2.upgrade) ∧
    ((ArchivedArcWeak.upgrade_pin w2).isSome = w2.upgrade.isSome) := by
  cases w <;> cases w2 <;>
    simp [ArchivedRcWeak.upgrade, ArchivedRcWeak.upgrade_pin, ArchivedRcWeak.upgradeRun,
      ArchivedArcWeak.upgrade, ArchivedArcWeak.upgrade_pin, ArchivedArcWeak.upgradeRun]

/-- Claim C4 counterexample: resolve does re-read the live weak pointer — the
`Some`-resolver branch calls `self.upgrade().unwrap()` (lines 189 and 396) —
so at the concrete input where the pointee was dropped between serialize and
resolve (upgrade state `Option.none`) the resolve panics (no write trace),
while the same captured resolver with a still-live pointee succeeds. -/
theorem weak_resolve_rereads_live :
    resolveRcWeakTrace 8 (Option.none : Option (Nat × Unit))
        (RcWeakResolver.some (⟨0, ()⟩ : RcResolver Unit)) 0 = Option.none ∧
    (resolveRcWeakTrace 8 (Option.some ((3, ()) : Nat × Unit))
        (RcWeakResolver.some (⟨0, ()⟩ : RcResolver Unit)) 0).isSome = true ∧
    resolveArcWeakTrace 8 (Option.none : Option (Nat × Unit))
        (ArcWeakResolver.some (⟨0, ()⟩ : ArcResolver Unit)) 0 = Option.none := by
  exact ⟨rfl, rfl, rfl⟩

/-- Claim C4 (amended): the `None`-resolver branch of weak resolve operates
purely on the captured resolver — it never reads the live weak pointer and
cannot fail; the `Some`-resolver branch re-reads the live weak pointer via
`upgrade().unwrap()` and succeeds exactly when the pointee is still live at
resolve time, panicking when it was dropped between serialize and resolve; on
success the writes are determined by the captured resolver. -/
theorem weak_resolve_upgrade_dependence (μ V : Type) (off1 pos : Nat) (r : RcResolver μ)
    (r2 : ArcResolver μ) (u : Option (Nat × V)) :
    (resolveRcWeakTrace off1 u (RcWeakResolver.none : RcWeakResolver μ) pos = Option.some [(pos, WriteEvent.tag 0)]) ∧
    ((resolveRcWeakTrace off1 u (RcWeakResolver.some r) pos).isSome = true ↔
      u.isSome = true) ∧
    (∀ iv, u = Option.some iv →
      resolveRcWeakTrace off1 u (RcWeakResolver.some r) pos =
        Option.some [(pos, WriteEvent.tag 1),
          (pos + off1, WriteEvent.payload r.pos r.metadata_resolver)]) ∧
    (resolveArcWeakTrace off1 u (ArcWeakResolver.none : ArcWeakResolver μ) pos = Option.some [(pos, WriteEvent.tag 0)]) ∧
    ((resolveArcWeakTrace off1 u (ArcWeakResolver.some r2) pos).isSome = true ↔
      u.isSome = true) ∧
    (∀ iv, u = Option.some iv →
      resolveArcWeakTrace off1 u (ArcWeakResolver.some r2) pos =
        Option.some [(pos, WriteEvent.tag 1),
          (pos + off1, WriteEvent.payload r2.pos r2.metadata_resolver)]) := by
  cases u <;> simp [resolveRcWeakTrace, resolveArcWeakTrace]

/-- Claim C10: for both archived weak pointer types the one-byte discriminant
written by resolve is 0 for the `None` variant and 1 for the `Some` variant
(the `repr(u8)` tag enums), written at offset 0 of the `repr(C)` variant
struct; in the `Some` variant the payload is written at the fixed offset
`off1` of the second field of the `repr(C)` variant layout, which lies after
the one-byte discriminant (`1 ≤ off1`), and the discriminant write precedes
the payload write both in the trace order and in byte position. -/
theorem weak_resolve_layout (μ V : Type) (off1 pos : Nat) (r : RcResolver μ) (r2 : ArcResolver μ)
    (u : Option (Nat × V)) (iv : Nat × V) :
    (resolveRcWeakTrace off1 u (RcWeakResolver.none : RcWeakResolver μ) pos = Option.some [(pos, WriteEvent.tag 0)]) ∧
    (resolveRcWeakTrace off1 (Option.some iv) (RcWeakResolver.some r) pos =
      Option.some [(pos, WriteEvent.tag 1),
        (pos + off1, WriteEvent.payload r.pos r.metadata_resolver)]) ∧
    (1 ≤ off1 → List.Pairwise (fun a b : Nat × WriteEvent μ => a.1 < b.1)
      [(pos, WriteEvent.tag 1), (pos + off1, WriteEvent.payload r.pos r.metadata_resolver)]) ∧
    (resolveArcWeakTrace off1 u (ArcWeakResolver.none : ArcWeakResolver μ) pos = Option.some [(pos, WriteEvent.tag 0)]) ∧
    (resolveArcWeakTrace off1 (Option.some iv) (ArcWeakResolver.some r2) pos =
      Option.some [(pos, WriteEvent.tag 1),
        (pos + off1, WriteEvent.payload r2.pos r2.metadata_resolver)]) ∧
    (1 ≤ off1 → List.Pairwise (fun a b : Nat × WriteEvent μ => a.1 < b.1)
      [(pos, WriteEvent.tag 1), (pos + off1, WriteEvent.payload r2.pos r2.metadata_resolver)]) := by
  refine ⟨rfl, rfl, fun h => ?_, rfl, rfl, fun h => ?_⟩ <;>
    · simp
      omega

/-- Claim C5: a weak pointer whose pointee is already dropped before
serialization (upgrade fails) serializes to the `None` resolver with the
serializer untouched, and hence to the `None` archived encoding (tag 0);
deserializing an archived `None` weak pointer produces `Weak::new()`, an
unassociated handle whose upgrade always fails; conversely a weak pointer
whose upgrade succeeds at serialization time serializes, whenever the
underlying serialization succeeds, to the `Some` resolver. -/
theorem weak_null_roundtrip (σ ε μ V : Type) (ops : SharedSerializerOps σ ε μ V) (s : σ)
    (off1 pos : Nat) (ds : DState) (heap : List (Nat × Nat)) (iv : Nat × V) :
    (serializeRcWeak ops (Option.none : Option (Nat × V)) s =
      Except.ok (RcWeakResolver.none, s)) ∧
    (resolveRcWeakTrace off1 (Option.none : Option (Nat × V))
      (RcWeakResolver.none : RcWeakResolver μ) pos = Option.some [(pos, WriteEvent.tag 0)]) ∧
    (rcWeakDeserialize ds ArchivedRcWeak.none = (Option.none, ds)) ∧
    (liveWeakUpgrade heap Option.none = Option.none) ∧
    (serializeRcWeak ops (Option.some iv) s =
      (serializeRc ops iv.1 iv.2 s).map (fun rs => (RcWeakResolver.some rs.1, rs.2))) ∧
    (serializeArcWeak ops (Option.none : Option (Nat × V)) s =
      Except.ok (ArcWeakResolver.none, s)) ∧
    (arcWeakDeserialize ds ArchivedArcWeak.none = (Option.none, ds)) ∧
    (serializeArcWeak ops (Option.some iv) s =
      (serializeArc ops iv.1 iv.2 s).map (fun rs => (ArcWeakResolver.some rs.1, rs.2))) := by
  refine ⟨rfl, rfl, rfl, rfl, ?_, rfl, rfl, ?_⟩
  · cases h : serializeRc ops iv.1 iv.2 s <;> simp [serializeRcWeak, h, Except.map]
  · cases h : serializeArc ops iv.1 iv.2 s <;> simp [serializeArcWeak, h, Except.map]

/-- Claim C9: for every strong or weak pointer serialize call, an error of the
underlying serializer capability (from `serialize_shared` or
`serialize_metadata`) is returned exactly as produced, unchanged; serialize
returns a resolver iff both underlying operations succeed (a dead weak
pointer invokes neither and always succeeds). -/
theorem serialize_error_propagation (σ ε μ V : Type) (ops : SharedSerializerOps σ ε μ V)
    (ident : Nat) (v : V) (s : σ) :
    (∀ e, ops.serialize_shared s ident v = Except.error e →
      serializeRc ops ident v s = Except.error e ∧
      serializeArc ops ident v s = Except.error e ∧
      serializeRcWeak ops (Option.some (ident, v)) s = Except.error e ∧
      serializeArcWeak ops (Option.some (ident, v)) s = Except.error e) ∧
    (∀ ps e, ops.serialize_shared s ident v = Except.ok ps →
      ops.serialize_metadata ps.2 v = Except.error e →
      serializeRc ops ident v s = Except.error e ∧
      serializeArc ops ident v s = Except.error e ∧
      serializeRcWeak ops (Option.some (ident, v)) s = Except.error e ∧
      serializeArcWeak ops (Option.some (ident, v)) s = Except.error e) ∧
    ((∃ out, serializeRc ops ident v s = Except.ok out) ↔
      (∃ ps, ops.serialize_shared s ident v = Except.ok ps ∧
        ∃ ms, ops.serialize_metadata ps.2 v = Except.ok ms)) ∧
    ((∃ out, serializeArc ops ident v s = Except.ok out) ↔
      (∃ ps, ops.serialize_shared s ident v = Except.ok ps ∧
        ∃ ms, ops.serialize_metadata ps.2 v = Except.ok ms)) ∧
    (∀ e, serializeRcWeak ops (Option.some (ident, v)) s = Except.error e ↔
      serializeRc ops ident v s = Except.error e) ∧
    (serializeRcWeak ops (Option.none : Option (Nat × V)) s =
      Except.ok (RcWeakResolver.none, s)) ∧
    (serializeArcWeak ops (Option.none : Option (Nat × V)) s =
      Except.ok (ArcWeakResolver.none, s)) := by
  refine ⟨?_, ?_, ?_, ?_, ?_, rfl, rfl⟩
  · intro e h1
    refine ⟨?_, ?_, ?_, ?_⟩ <;>
      simp [serializeRc, serializeArc, serializeRcWeak, serializeArcWeak, h1]
  · intro ps e h1 h2
    refine ⟨?_, ?_, ?_, ?_⟩ <;>
      simp [serializeRc, serializeArc, serializeRcWeak, serializeArcWeak, h1, h2]
  · cases h1 : ops.serialize_shared s ident v with
    | error e1 => simp [serializeRc, h1]
    | ok ps =>
      cases h2 : ops.serialize_metadata ps.2 v with
      | error e2 => simp [serializeRc, h1, h2]
      | ok ms =>
        simp [serializeRc, h1, h2]
        exact ⟨ms.1, ms.2, rfl⟩
  · cases h1 : ops.serialize_shared s ident v with
    | error e1 => simp [serializeArc, h1]
    | ok ps =>
      cases h2 : ops.serialize_metadata ps.2 v with
      | error e2 => simp [serializeArc, h1, h2]
      | ok ms =>
        simp [serializeArc, h1, h2]
        exact ⟨ms.1, ms.2, rfl⟩
  · intro e
    cases hr : serializeRc ops ident v s with
    | error e' => simp [serializeRcWeak, hr]
    | ok rs => simp [serializeRcWeak, hr]

/-- Claim C8: the single-owner-thread (`Rc`/`rc::Weak`) and
multi-owner-thread (`Arc`/`sync::Weak`) archiving paths are isomorphic: under
the field-for-field resolver correspondence, serialize, resolve and
deserialize of the two instantiations perform the same registry and metadata
operations, produce identical write traces and archived layouts, and
reconstruct identically, differing only in the shared-pointer type used. -/
theorem rc_arc_isomorphic (σ ε μ V : Type) (ops : SharedSerializerOps σ ε μ V) (ident : Nat)
    (v : V) (s : σ) (u : Option (Nat × V)) (pos off1 : Nat) (r : ArcResolver μ)
    (wr : ArcWeakResolver μ) (ds : DState) (aw : ArchivedArcWeak Nat) :
    ((serializeArc ops ident v s).map (fun p => (p.1.toRcResolver, p.2)) =
      serializeRc ops ident v s) ∧
    (resolveArc pos r = resolveRc pos r.toRcResolver) ∧
    ((serializeArcWeak ops u s).map (fun p => (p.1.toRcWeakResolver, p.2)) =
      serializeRcWeak ops u s) ∧
    (resolveArcWeakTrace off1 u wr pos = resolveRcWeakTrace off1 u wr.toRcWeakResolver pos) ∧
    (arcDeserialize ds ident = rcDeserialize ds ident) ∧
    (arcWeakDeserialize ds aw = rcWeakDeserialize ds aw.toRcWeak) ∧
    (aw.upgrade = aw.toRcWeak.upgrade) := by
  exact ⟨serializeArc_toRc ops ident v s, rfl, serializeArcWeak_toRc ops u s,
    resolveArcWeakTrace_toRc off1 u wr pos, rfl, arcWeakDeserialize_toRc ds aw,
    archivedArcWeak_upgrade_toRc Nat aw⟩


/-- Claim C1: for every sequence of serialize calls on strong or weak shared
pointers within one archiving operation, a given pointee identity is archived
at most once — the archive holds pairwise distinct identities, exactly the
identities the calls archived; the first serialize of an identity writes the
pointee's bytes and records its position, every serialize of that identity
returns a resolver whose recorded position is the registered position of that
identity's unique archive record, so any two calls on the same identity
record equal positions and the archive contains exactly one copy of the
pointee's bytes; the `Arc` serializer records the same positions. -/
theorem shared_serialize_dedup (V : Type) (inputs : List (SReq V)) :
    (((runSerialize inputs (initS : SState V)).2.archive.map Prod.fst).Nodup) ∧
    ((runSerialize inputs (initS : SState V)).1.length = inputs.length) ∧
    (∀ id, id ∈ (runSerialize inputs (initS : SState V)).2.archive.map Prod.fst ↔
      Option.some id ∈ inputs.map SReq.identOf) ∧
    (∀ q ∈ List.zip inputs (runSerialize inputs (initS : SState V)).1,
      ∀ id, q.1.identOf = Option.some id → ∃ p, q.2 = Option.some p ∧
        ∃ v, (runSerialize inputs (initS : SState V)).2.archive[p]? = Option.some (id, v)) ∧
    (∀ q ∈ List.zip inputs (runSerialize inputs (initS : SState V)).1,
      ∀ q' ∈ List.zip inputs (runSerialize inputs (initS : SState V)).1,
      ∀ id, q.1.identOf = Option.some id → q'.1.identOf = Option.some id → q.2 = q'.2) ∧
    (∀ (id : Nat) (v : V) (s : SState V),
      (serializeArc (dedupOps : SharedSerializerOps (SState V) Empty Unit V) id v s).map
          (fun p => (p.1.pos, p.2)) =
        (serializeRc dedupOps id v s).map (fun p => (p.1.pos, p.2))) := by
  have h0 : SInv (initS : SState V) := by
    refine ⟨List.nodup_nil, ?_, ?_⟩
    · intro id p h
      simp [initS, alookup] at h
    · intro id h
      simp [initS]
  obtain ⟨h1, h2, h3, h4, h5⟩ := runSerialize_spec inputs (initS : SState V) h0
  refine ⟨h1.1, h2, ?_, ?_, ?_, ?_⟩
  · intro id
    rw [h4 id]
    simp [initS]
  · intro q hq id hid
    obtain ⟨p, hp1, hp2⟩ := h5 q hq id hid
    obtain ⟨v, hv⟩ := h1.2.1 id p hp2
    exact ⟨p, hp1, v, hv⟩
  · intro q hq q' hq' id hid hid'
    obtain ⟨p, hp1, hp2⟩ := h5 q hq id hid
    obtain ⟨p', hp1', hp2'⟩ := h5 q' hq' id hid'
    rw [hp1, hp1']
    rw [hp2] at hp2'
    injection hp2' with he
    rw [he]
  · intro id v s
    rw [← serializeArc_toRc dedupOps id v s]
    cases h : serializeArc dedupOps id v s <;>
      simp [Except.map, ArcResolver.toRcResolver]


/-! Deserializer-side helper lemmas. -/

theorem deserialize_shared_of_some (s : DState) (i p : Nat)
    (hl : alookup s.dregistry i = Option.some p) :
    deserialize_shared s i = (p, s) := by
  simp [deserialize_shared, hl]

theorem deserialize_shared_of_none (s : DState) (i : Nat)
    (hl : alookup s.dregistry i = Option.none) :
    deserialize_shared s i =
      (s.nextPtr, ⟨(i, s.nextPtr) :: s.dregistry, (s.nextPtr, 1) :: s.heap, s.nextPtr + 1,
        s.constructed ++ [i]⟩) := by
  simp [deserialize_shared, hl]

theorem deserialize_shared_lookup_self (s : DState) (i : Nat) :
    alookup (deserialize_shared s i).2.dregistry i =
      Option.some (deserialize_shared s i).1 := by
  cases hl : alookup s.dregistry i with
  | some p => rw [deserialize_shared_of_some s i p hl]; exact hl
  | none =>
    rw [deserialize_shared_of_none s i hl]
    simp [alookup_cons]

theorem deserialize_shared_lookup_mono (s : DState) (i id p : Nat)
    (h : alookup s.dregistry id = Option.some p) :
    alookup (deserialize_shared s i).2.dregistry id = Option.some p := by
  cases hl : alookup s.dregistry i with
  | some q => rw [deserialize_shared_of_some s i q hl]; exact h
  | none =>
    rw [deserialize_shared_of_none s i hl]
    show alookup ((i, s.nextPtr) :: s.dregistry) id = Option.some p
    rw [alookup_cons]
    have hne : i ≠ id := by
      intro he
      subst he
      simp [h] at hl
    rw [if_neg hne]
    exact h

theorem deserialize_shared_lookup_ne (s : DState) (i id : Nat) :
    alookup (deserialize_shared s i).2.dregistry id ≠ Option.none ↔
      (alookup s.dregistry id ≠ Option.none ∨ id = i) := by
  cases hl : alookup s.dregistry i with
  | some p =>
    rw [deserialize_shared_of_some s i p hl]
    constructor
    · exact Or.inl
    · rintro (hc | rfl)
      · exact hc
      · simp [hl]
  | none =>
    rw [deserialize_shared_of_none s i hl]
    show alookup ((i, s.nextPtr) :: s.dregistry) id ≠ Option.none ↔ _
    rw [alookup_cons]
    by_cases he : i = id
    · subst he
      simp [hl]
    · rw [if_neg he]
      have hne : ¬ id = i := fun hh => he hh.symm
      simp [hne]

theorem deserialize_shared_dinv (s : DState) (i : Nat) (h : DInv s) :
    DInv (deserialize_shared s i).2 := by
  obtain ⟨hnd, hiff⟩ := h
  cases hl : alookup s.dregistry i with
  | some p =>
    rw [deserialize_shared_of_some s i p hl]
    exact ⟨hnd, hiff⟩
  | none =>
    rw [deserialize_shared_of_none s i hl]
    refine ⟨?_, ?_⟩
    · refine hnd.append (List.nodup_singleton i) ?_
      intro a ha hb
      simp at hb
      subst hb
      exact (hiff a).1 ha hl
    · intro id
      show id ∈ s.constructed ++ [i] ↔ alookup ((i, s.nextPtr) :: s.dregistry) id ≠ Option.none
      rw [alookup_cons, List.mem_append, List.mem_singleton]
      by_cases he : i = id
      · subst he
        simp
      · rw [if_neg he]
        constructor
        · rintro (hc | hc)
          · exact (hiff id).1 hc
          · exact absurd hc.symm he
        · intro hc
          exact Or.inl ((hiff id).2 hc)

theorem rcDeserialize_snd_dregistry (s : DState) (i : Nat) :
    (rcDeserialize s i).2.dregistry = (deserialize_shared s i).2.dregistry := rfl

theorem rcWeakDeserialize_some_dregistry (s : DState) (i : Nat) :
    (rcWeakDeserialize s (ArchivedRcWeak.some i)).2.dregistry =
      (deserialize_shared s i).2.dregistry := rfl

theorem runDeserialize_cons_strong (i : Nat) (rest : List DReq) (s : DState) :
    runDeserialize (DReq.strong i :: rest) s =
      (DHandle.strong (rcDeserialize s i).1 :: (runDeserialize rest (rcDeserialize s i).2).1,
       (runDeserialize rest (rcDeserialize s i).2).2) := by
  simp [runDeserialize]

theorem runDeserialize_cons_weakNone (rest : List DReq) (s : DState) :
    runDeserialize (DReq.weakReq ArchivedRcWeak.none :: rest) s =
      (DHandle.weak Option.none :: (runDeserialize rest s).1, (runDeserialize rest s).2) := by
  simp [runDeserialize, rcWeakDeserialize]

theorem runDeserialize_cons_weakSome (i : Nat) (rest : List DReq) (s : DState) :
    runDeserialize (DReq.weakReq (ArchivedRcWeak.some i) :: rest) s =
      (DHandle.weak (Option.some (rcDeserialize s i).1) ::
        (runDeserialize rest (rcWeakDeserialize s (ArchivedRcWeak.some i)).2).1,
       (runDeserialize rest (rcWeakDeserialize s (ArchivedRcWeak.some i)).2).2) := by
  simp [runDeserialize, rcWeakDeserialize]

theorem runDeserialize_spec (reqs : List DReq) (s : DState) (h : DInv s) :
    DInv (runDeserialize reqs s).2 ∧
    (runDeserialize reqs s).1.length = reqs.length ∧
    (∀ id p, alookup s.dregistry id = Option.some p →
      alookup (runDeserialize reqs s).2.dregistry id = Option.some p) ∧
    (∀ id, alookup (runDeserialize reqs s).2.dregistry id ≠ Option.none ↔
      (alookup s.dregistry id ≠ Option.none ∨ Option.some id ∈ reqs.map DReq.identOf)) ∧
    (∀ q ∈ List.zip reqs (runDeserialize reqs s).1, ∀ id,
      q.1.identOf = Option.some id →
      ∃ p, q.2.ptrOf = Option.some p ∧
        alookup (runDeserialize reqs s).2.dregistry id = Option.some p) := by
  induction reqs generalizing s with
  | nil =>
    refine ⟨h, rfl, fun id p hp => hp, fun id => ?_, fun q hq => ?_⟩
    · simp [runDeserialize]
    · simp [runDeserialize] at hq
  | cons req rest ih =>
    cases req with
    | strong i =>
      rw [runDeserialize_cons_strong]
      obtain ⟨h1, h2, h3, h4, h5⟩ := ih (rcDeserialize s i).2 (deserialize_shared_dinv s i h)
      refine ⟨h1, by simp [h2], ?_, ?_, ?_⟩
      · intro id p hp
        apply h3
        rw [rcDeserialize_snd_dregistry]
        exact deserialize_shared_lookup_mono s i id p hp
      · intro id
        rw [h4 id, rcDeserialize_snd_dregistry, deserialize_shared_lookup_ne]
        simp [DReq.identOf]
        tauto
      · intro q hq id hid
        rw [List.zip_cons_cons] at hq
        rcases List.mem_cons.1 hq with hq | hq
        · subst hq
          simp [DReq.identOf] at hid
          subst hid
          refine ⟨(rcDeserialize s i).1, rfl, ?_⟩
          apply h3
          rw [rcDeserialize_snd_dregistry]
          exact deserialize_shared_lookup_self s i
        · exact h5 q hq id hid
    | weakReq aw =>
      cases aw with
      | none =>
        rw [runDeserialize_cons_weakNone]
        obtain ⟨h1, h2, h3, h4, h5⟩ := ih s h
        refine ⟨h1, by simp [h2], h3, ?_, ?_⟩
        · intro id
          rw [h4 id]
          simp [DReq.identOf]
        · intro q hq id hid
          rw [List.zip_cons_cons] at hq
          rcases List.mem_cons.1 hq with hq | hq
          · subst hq
            simp [DReq.identOf, ArchivedRcWeak.upgrade] at hid
          · exact h5 q hq id hid
      | some i =>
        rw [runDeserialize_cons_weakSome]
        obtain ⟨h1, h2, h3, h4, h5⟩ :=
          ih (rcWeakDeserialize s (ArchivedRcWeak.some i)).2 (deserialize_shared_dinv s i h)
        refine ⟨h1, by simp [h2], ?_, ?_, ?_⟩
        · intro id p hp
          apply h3
          rw [rcWeakDeserialize_some_dregistry]
          exact deserialize_shared_lookup_mono s i id p hp
        · intro id
          rw [h4 id, rcWeakDeserialize_some_dregistry, deserialize_shared_lookup_ne]
          simp [DReq.identOf]
          tauto
        · intro q hq id hid
          rw [List.zip_cons_cons] at hq
          rcases List.mem_cons.1 hq with hq | hq
          · subst hq
            simp [DReq.identOf] at hid
            subst hid
            refine ⟨(rcDeserialize s i).1, rfl, ?_⟩
            apply h3
            rw [rcWeakDeserialize_some_dregistry]
            exact deserialize_shared_lookup_self s i
          · exact h5 q hq id hid


/-- Claim C2: for any two archived pointers (strong or weak, in any order)
serialized from the same original pointee identity, deserializing both
through one deserializer yields handles aliasing one reconstructed
allocation: the registry invokes the constructor only on first sighting of an
identity (the constructed identities are pairwise distinct and are exactly
the dereferenced ones), every handle's allocation is the registry's single
raw pointer for its identity — so handles of equal identities are equal —
and a weak pointer is reconstructed by obtaining the deduplicated strong
handle and downgrading it; the `Arc` path reconstructs identically. -/
theorem shared_deserialize_dedup (reqs : List DReq) :
    ((runDeserialize reqs initD).2.constructed.Nodup) ∧
    ((runDeserialize reqs initD).1.length = reqs.length) ∧
    (∀ id, id ∈ (runDeserialize reqs initD).2.constructed ↔
      Option.some id ∈ reqs.map DReq.identOf) ∧
    (∀ q ∈ List.zip reqs (runDeserialize reqs initD).1, ∀ id,
      q.1.identOf = Option.some id →
      ∃ p, q.2.ptrOf = Option.some p ∧
        alookup (runDeserialize reqs initD).2.dregistry id = Option.some p) ∧
    (∀ q ∈ List.zip reqs (runDeserialize reqs initD).1,
      ∀ q' ∈ List.zip reqs (runDeserialize reqs initD).1,
      ∀ id, q.1.identOf = Option.some id → q'.1.identOf = Option.some id →
        q.2.ptrOf = q'.2.ptrOf) ∧
    (∀ (s : DState) (i : Nat),
      (rcWeakDeserialize s (ArchivedRcWeak.some i)).1 =
        Option.some (rcDeserialize s i).1) ∧
    (∀ (s : DState) (i : Nat), arcDeserialize s i = rcDeserialize s i) := by
  have h0 : DInv initD := by
    refine ⟨List.nodup_nil, ?_⟩
    intro id
    simp [initD, alookup]
  obtain ⟨h1, h2, h3, h4, h5⟩ := runDeserialize_spec reqs initD h0
  refine ⟨h1.1, h2, ?_, h5, ?_, fun s i => rfl, fun s i => rfl⟩
  · intro id
    rw [h1.2 id, h4 id]
    simp [initD, alookup]
  · intro q hq q' hq' id hid hid'
    obtain ⟨p, hp1, hp2⟩ := h5 q hq id hid
    obtain ⟨p', hp1', hp2'⟩ := h5 q' hq' id hid'
    rw [hp1, hp1']
    rw [hp2] at hp2'
    injection hp2' with he
    rw [he]

/-! Strong-count lemmas for claim C3. -/

theorem alookup_heapInc (h : List (Nat × Nat)) (p q : Nat) :
    alookup (heapInc h p) q =
      if q = p then (alookup h p).map (fun n => n + 1) else alookup h q := by
  induction h with
  | nil =>
    by_cases hq : q = p <;> simp [heapInc, alookup, hq]
  | cons e rest ih =>
    obtain ⟨k, n⟩ := e
    by_cases hkp : k = p
    · subst hkp
      by_cases hq : q = k
      · subst hq
        simp [heapInc, alookup_cons]
      · have hkq : ¬ k = q := fun hh => hq hh.symm
        simp [heapInc, alookup_cons, hq, hkq]
    · by_cases hq : q = p
      · subst hq
        have hkq : ¬ k = q := hkp
        simp [heapInc, alookup_cons, hkp, hkq, ih]
      · simp [heapInc, alookup_cons, hkp, hq, ih]

theorem alookup_heapDec (h : List (Nat × Nat)) (p q : Nat) :
    alookup (heapDec h p) q =
      if q = p then (alookup h p).map (fun n => n - 1) else alookup h q := by
  induction h with
  | nil =>
    by_cases hq : q = p <;> simp [heapDec, alookup, hq]
  | cons e rest ih =>
    obtain ⟨k, n⟩ := e
    by_cases hkp : k = p
    · subst hkp
      by_cases hq : q = k
      · subst hq
        simp [heapDec, alookup_cons]
      · have hkq : ¬ k = q := fun hh => hq hh.symm
        simp [heapDec, alookup_cons, hq, hkq]
    · by_cases hq : q = p
      · subst hq
        have hkq : ¬ k = q := hkp
        simp [heapDec, alookup_cons, hkp, hkq, ih]
      · simp [heapDec, alookup_cons, hkp, hq, ih]

theorem alookup_dropHandles (h : List (Nat × Nat)) (p n : Nat)
    (hp : alookup h p = Option.some n) (k : Nat) :
    alookup (dropHandles h p k) p = Option.some (n - k) := by
  induction k with
  | zero => simpa using hp
  | succ k ih =>
    have e1 : dropHandles h p (k + 1) = heapDec (dropHandles h p k) p := rfl
    rw [e1, alookup_heapDec, if_pos rfl, ih]
    simp [Nat.sub_sub]

theorem rcDeserialize_of_some (s : DState) (i p : Nat)
    (hl : alookup s.dregistry i = Option.some p) :
    rcDeserialize s i = (p, { s with heap := heapInc s.heap p }) := by
  simp [rcDeserialize, deserialize_shared_of_some s i p hl]

theorem rcDeserialize_of_none (s : DState) (i : Nat)
    (hl : alookup s.dregistry i = Option.none) :
    rcDeserialize s i =
      (s.nextPtr, ⟨(i, s.nextPtr) :: s.dregistry, (s.nextPtr, 2) :: s.heap, s.nextPtr + 1,
        s.constructed ++ [i]⟩) := by
  simp [rcDeserialize, deserialize_shared_of_none s i hl, heapInc]

theorem rcDeserialize_cinv (s : DState) (i : Nat) (h : CInv s) :
    CInv (rcDeserialize s i).2 := by
  obtain ⟨hlt, hinj⟩ := h
  cases hl : alookup s.dregistry i with
  | some p =>
    rw [rcDeserialize_of_some s i p hl]
    exact ⟨hlt, hinj⟩
  | none =>
    rw [rcDeserialize_of_none s i hl]
    refine ⟨?_, ?_⟩
    · intro id p hp
      show p < s.nextPtr + 1
      rw [show alookup (⟨(i, s.nextPtr) :: s.dregistry, (s.nextPtr, 2) :: s.heap,
          s.nextPtr + 1, s.constructed ++ [i]⟩ : DState).dregistry id =
          alookup ((i, s.nextPtr) :: s.dregistry) id from rfl, alookup_cons] at hp
      by_cases he : i = id
      · rw [if_pos he] at hp
        injection hp with hp
        omega
      · rw [if_neg he] at hp
        have := hlt id p hp
        omega
    · intro id id' p hp hp'
      rw [show alookup (⟨(i, s.nextPtr) :: s.dregistry, (s.nextPtr, 2) :: s.heap,
          s.nextPtr + 1, s.constructed ++ [i]⟩ : DState).dregistry id =
          alookup ((i, s.nextPtr) :: s.dregistry) id from rfl, alookup_cons] at hp
      rw [show alookup (⟨(i, s.nextPtr) :: s.dregistry, (s.nextPtr, 2) :: s.heap,
          s.nextPtr + 1, s.constructed ++ [i]⟩ : DState).dregistry id' =
          alookup ((i, s.nextPtr) :: s.dregistry) id' from rfl, alookup_cons] at hp'
      by_cases he : i = id <;> by_cases he' : i = id'
      · rw [← he, ← he']
      · rw [if_pos he] at hp
        rw [if_neg he'] at hp'
        injection hp with hp
        have := hlt id' p hp'
        omega
      · rw [if_neg he] at hp
        rw [if_pos he'] at hp'
        injection hp' with hp'
        have := hlt id p hp
        omega
      · rw [if_neg he] at hp
        rw [if_neg he'] at hp'
        exact hinj id id' p hp hp'


theorem runStrong_count (idents : List Nat) (s : DState) (h : CInv s) :
    CInv (runDeserialize (idents.map DReq.strong) s).2 ∧
    (∀ id p, alookup s.dregistry id = Option.some p →
      alookup (runDeserialize (idents.map DReq.strong) s).2.dregistry id = Option.some p) ∧
    (∀ id p n, alookup s.dregistry id = Option.some p → alookup s.heap p = Option.some n →
      alookup (runDeserialize (idents.map DReq.strong) s).2.heap p =
        Option.some (n + idents.count id)) ∧
    (∀ id, alookup s.dregistry id = Option.none → id ∈ idents →
      ∃ p, alookup (runDeserialize (idents.map DReq.strong) s).2.dregistry id =
          Option.some p ∧
        alookup (runDeserialize (idents.map DReq.strong) s).2.heap p =
          Option.some (idents.count id + 1)) := by
  induction idents generalizing s with
  | nil =>
    refine ⟨h, fun id p hp => hp, fun id p n hp hn => ?_, fun id hp hm => absurd hm (by simp)⟩
    simpa [runDeserialize] using hn
  | cons i rest ih =>
    rw [List.map_cons, runDeserialize_cons_strong]
    obtain ⟨h1, h2, h3, h4⟩ := ih (rcDeserialize s i).2 (rcDeserialize_cinv s i h)
    refine ⟨h1, ?_, ?_, ?_⟩
    · intro id p hp
      apply h2
      cases hl : alookup s.dregistry i with
      | some q =>
        rw [rcDeserialize_of_some s i q hl]
        exact hp
      | none =>
        rw [rcDeserialize_of_none s i hl]
        show alookup ((i, s.nextPtr) :: s.dregistry) id = Option.some p
        rw [alookup_cons]
        have hne : i ≠ id := by
          intro he
          subst he
          simp [hp] at hl
        rw [if_neg hne]
        exact hp
    · intro id p n hp hn
      by_cases he : i = id
      · subst he
        have hr1 : alookup (rcDeserialize s i).2.dregistry i = Option.some p := by
          rw [rcDeserialize_of_some s i p hp]
          exact hp
        have hh1 : alookup (rcDeserialize s i).2.heap p = Option.some (n + 1) := by
          rw [rcDeserialize_of_some s i p hp]
          show alookup (heapInc s.heap p) p = Option.some (n + 1)
          rw [alookup_heapInc, if_pos rfl, hn]
          rfl
        rw [h3 i p (n + 1) hr1 hh1]
        simp [List.count_cons]
        omega
      · have hr1 : alookup (rcDeserialize s i).2.dregistry id = Option.some p := by
          cases hl : alookup s.dregistry i with
          | some q =>
            rw [rcDeserialize_of_some s i q hl]
            exact hp
          | none =>
            rw [rcDeserialize_of_none s i hl]
            show alookup ((i, s.nextPtr) :: s.dregistry) id = Option.some p
            rw [alookup_cons, if_neg he]
            exact hp
        have hh1 : alookup (rcDeserialize s i).2.heap p = Option.some n := by
          cases hl : alookup s.dregistry i with
          | some q =>
            rw [rcDeserialize_of_some s i q hl]
            show alookup (heapInc s.heap q) p = Option.some n
            have hpq : p ≠ q := by
              intro hpq
              subst hpq
              exact he (h.2 i id p hl hp)
            rw [alookup_heapInc, if_neg hpq]
            exact hn
          | none =>
            rw [rcDeserialize_of_none s i hl]
            show alookup ((s.nextPtr, 2) :: s.heap) p = Option.some n
            rw [alookup_cons]
            have hplt := h.1 id p hp
            have hpn : s.nextPtr ≠ p := by omega
            rw [if_neg hpn]
            exact hn
        rw [h3 id p n hr1 hh1]
        have hne : ¬ id = i := fun hh => he hh.symm
        simp [List.count_cons, hne]
    · intro id hp hm
      by_cases he : i = id
      · subst he
        have hstep := rcDeserialize_of_none s i hp
        have hr1 : alookup (rcDeserialize s i).2.dregistry i = Option.some s.nextPtr := by
          rw [hstep]
          show alookup ((i, s.nextPtr) :: s.dregistry) i = Option.some s.nextPtr
          rw [alookup_cons, if_pos rfl]
        have hh1 : alookup (rcDeserialize s i).2.heap s.nextPtr = Option.some 2 := by
          rw [hstep]
          show alookup ((s.nextPtr, 2) :: s.heap) s.nextPtr = Option.some 2
          rw [alookup_cons, if_pos rfl]
        refine ⟨s.nextPtr, h2 i s.nextPtr hr1, ?_⟩
        rw [h3 i s.nextPtr 2 hr1 hh1]
        simp [List.count_cons]
        omega
      · have hm' : id ∈ rest := by
          rcases List.mem_cons.1 hm with hc | hc
          · exact absurd hc.symm he
          · exact hc
        have hp1 : alookup (rcDeserialize s i).2.dregistry id = Option.none := by
          cases hl : alookup s.dregistry i with
          | some q =>
            rw [rcDeserialize_of_some s i q hl]
            exact hp
          | none =>
            rw [rcDeserialize_of_none s i hl]
            show alookup ((i, s.nextPtr) :: s.dregistry) id = Option.none
            rw [alookup_cons, if_neg he]
            exact hp
        obtain ⟨p, hreg, hheap⟩ := h4 id hp1 hm'
        refine ⟨p, hreg, ?_⟩
        rw [hheap]
        have hne : ¬ id = i := fun hh => he hh.symm
        simp [List.count_cons, hne]

/-- Claim C3: after a sequence of strong-pointer deserialize calls, for every
identity deserialized N times the allocation registered for it has strong
count exactly N plus the registry's one standing reference; dropping any
k ≤ N of the caller handles leaves count N + 1 - k, which stays positive —
the allocation is never freed while the registry reference stands and no
drop can underflow the count, so it is neither freed while a caller handle is
live nor double-freed when all are dropped. -/
theorem deserialize_strong_count (idents : List Nat) (id : Nat) (hmem : id ∈ idents) :
    ∃ p, alookup (runDeserialize (idents.map DReq.strong) initD).2.dregistry id =
        Option.some p ∧
      alookup (runDeserialize (idents.map DReq.strong) initD).2.heap p =
        Option.some (idents.count id + 1) ∧
      (∀ k, k ≤ idents.count id →
        alookup (dropHandles (runDeserialize (idents.map DReq.strong) initD).2.heap p k) p =
          Option.some (idents.count id + 1 - k) ∧ 0 < idents.count id + 1 - k) := by
  have h0 : CInv initD := by
    refine ⟨?_, ?_⟩
    · intro a p hp
      simp [initD, alookup] at hp
    · intro a b p hp
      simp [initD, alookup] at hp
  obtain ⟨hc, hmono, hcount, hfresh⟩ := runStrong_count idents initD h0
  obtain ⟨p, hp1, hp2⟩ := hfresh id (by simp [initD, alookup]) hmem
  refine ⟨p, hp1, hp2, ?_⟩
  intro k hk
  refine ⟨alookup_dropHandles _ p _ hp2 k, ?_⟩
  omega

/-- Witness for claim C3: a run of three strong deserialize calls, two of
them on identity 5, leaves identity 5's allocation with strong count 3. -/
theorem deserialize_strong_count_witness :
    ∃ p, alookup (runDeserialize ([5, 5, 7].map DReq.strong) initD).2.dregistry 5 =
        Option.some p ∧
      alookup (runDeserialize ([5, 5, 7].map DReq.strong) initD).2.heap p =
        Option.some ([5, 5, 7].count 5 + 1) ∧
      (∀ k, k ≤ [5, 5, 7].count 5 →
        alookup (dropHandles (runDeserialize ([5, 5, 7].map DReq.strong) initD).2.heap p k) p =
          Option.some ([5, 5, 7].count 5 + 1 - k) ∧ 0 < [5, 5, 7].count 5 + 1 - k) :=
  deserialize_strong_count [5, 5, 7] 5 (by decide)

end RkyvShared
